import Mathlib

/-!
Verification of the "Multiplication Drill" repository.

The main script (the single TypeScript file wiring the page) is embedded in
namespace `App`; the difficulty table of the Playwright page object model is
embedded in namespace `POM`; the deterministic test-mode random source and
`randomMultiplier` are embedded in namespace `Rand`.  The reactive signal
engine (`Signal` / `ComputedSignal` / `effect`) that the README attributes to
`signals.ts` has no implementation in the repository snapshot, so it is
modelled from the specification text in namespace `Signals`.
-/

namespace App

/-- The main script's application state.  In the source these are the plain
mutable variables `let count = 0; let multiplier = 0;` declared at top level
of the main script (no Signal cells are involved). -/
structure AppState where
  count : Int
  multiplier : Int
deriving DecidableEq, Repr

/-- `render()`: writes the string `${count} × ${multiplier} = ${count*multiplier}`
to the display element, reading the plain variables directly. -/
def render (s : AppState) : String :=
  toString s.count ++ " × " ++ toString s.multiplier ++ " = " ++
    toString (s.count * s.multiplier)

/-- The `incrementBtn.onclick` handler: `count++; render();` — a direct update
of a plain mutable variable followed by an explicit `render()` call.  No
observer is notified; propagation to the display is the explicit call.
Returns the new state and the string written to the display. -/
def incrementClick (s : AppState) : AppState × String :=
  let s' : AppState := { s with count := s.count + 1 }
  (s', render s')

/-- `difficultyRanges` from the main script:
`{1: [2,5], 2: [3,8], 3: [5,12], 4: [10,20]}`; any other key is absent
(`undefined` in TypeScript), modelled as `none`. -/
def difficultyRanges : Nat → Option (Int × Int)
  | 1 => some (2, 5)
  | 2 => some (3, 8)
  | 3 => some (5, 12)
  | 4 => some (10, 20)
  | _ => none

end App

namespace POM

/-- A row of `DIFFICULTY_MAP` in `e2e/pages/quiz-page.ts`. -/
structure DifficultyConfig where
  name : String
  lo : Int
  hi : Int
deriving DecidableEq, Repr

/-- `DIFFICULTY_MAP` from `e2e/pages/quiz-page.ts`:
`{1: Easy 2..5, 2: Medium 4..8, 3: Hard 6..12, 4: Expert 10..20}`. -/
def DIFFICULTY_MAP : Nat → Option DifficultyConfig
  | 1 => some ⟨"Easy", 2, 5⟩
  | 2 => some ⟨"Medium", 4, 8⟩
  | 3 => some ⟨"Hard", 6, 12⟩
  | 4 => some ⟨"Expert", 10, 20⟩
  | _ => none

/-- The `[min, max]` range a `DIFFICULTY_MAP` row advertises. -/
def range (c : DifficultyConfig) : Int × Int := (c.lo, c.hi)

end POM

namespace Rand

/-- One call of `window.__nextRand(min, max)` from the main script's test-mode
block: `seed = (seed * 7) % 23; return min + (seed % (max - min + 1));`.
The seed is a nonnegative integer (it starts at 1), so JavaScript `%`
agrees with `Nat.mod` / `Int.emod` here.  Returns the new seed and the
returned value. -/
def nextRandStep (seed : Nat) (mn mx : Int) : Nat × Int :=
  let s : Nat := (seed * 7) % 23
  (s, mn + (s : Int) % (mx - mn + 1))

/-- `randomMultiplier()` from the main script.  `testMode` is
`window.__TEST_MODE__` (with `window.__nextRand` installed), `seed` is the
test-mode seed, `r` models the `Math.random()` sample (a real number in
`[0,1)`; we use `ℚ` since every double is rational), `d` is
`Number(difficultyInput.value)`.  Returns `none` when the difficulty key is
not in the table (the TypeScript code would crash destructuring
`undefined`), otherwise the new seed and the chosen multiplier. -/
def randomMultiplier (testMode : Bool) (seed : Nat) (r : ℚ) (d : Nat) :
    Option (Nat × Int) :=
  (App.difficultyRanges d).map fun p =>
    if testMode then nextRandStep seed p.1 p.2
    else (seed, p.1 + ⌊r * (((p.2 - p.1 + 1 : Int)) : ℚ)⌋)

/-- The sequence of values returned by successive `__nextRand` calls, given
the starting seed and the list of `(min, max)` arguments of each call. -/
def runFrom (seed : Nat) : List (Int × Int) → List Int
  | [] => []
  | p :: rest =>
    let s : Nat := (seed * 7) % 23
    (p.1 + (s : Int) % (p.2 - p.1 + 1)) :: runFrom s rest

/-- The outputs of a whole test-mode run: the seed starts at 1 when the
test-mode block installs `__nextRand`. -/
def nextRandRun (args : List (Int × Int)) : List Int := runFrom 1 args

end Rand

namespace Signals

/-- Modelled from the spec: the repository's README points at `signals.ts`
(Signal / ComputedSignal / effect), which is missing from the snapshot, so
the engine is modelled from the specification text.  Compute and effect
bodies are a small pure expression language: `read j` is `get()` on node
`j` (the operation dependency tracking records), `ifnz` gives conditional
(hence dynamic) dependencies, and `boom` models a compute function that
throws. -/
inductive Expr where
  | lit : Int → Expr
  | add : Expr → Expr → Expr
  | mul : Expr → Expr → Expr
  | ifnz : Expr → Expr → Expr → Expr
  | read : Nat → Expr
  | boom : Expr
deriving DecidableEq, Repr

/-- Modelled from the spec: the static declaration of a node of the reactive
graph — a `Signal` with its initial value, a `ComputedSignal` with its
compute body, or an `effect` with its body.  Nodes are created in id order. -/
inductive NodeDef where
  | sig : Int → NodeDef
  | comp : Expr → NodeDef
  | eff : Expr → NodeDef
deriving DecidableEq, Repr

/-- A reactive program: the node declarations, indexed by node id. -/
abbrev Program := List NodeDef

/-- Modelled from the spec: the dynamic state of one node.  A `Signal` uses
`value`; a `ComputedSignal` uses `value` (the cache), `dirty`, `deps` (the
dependency set of its last run) and `runs` (how often its compute function
ran); an effect uses `deps`, `runs` and `disposed`. -/
structure NodeSt where
  value : Int := 0
  dirty : Bool := true
  deps : List Nat := []
  runs : Nat := 0
  disposed : Bool := false
deriving DecidableEq, Repr

instance : Inhabited NodeSt := ⟨{}⟩

/-- The dynamic state of the whole graph, indexed by node id. -/
abbrev EState := List NodeSt

/-- The declaration of node `j` (out-of-range ids read as an inert Signal). -/
def defAt (p : Program) (j : Nat) : NodeDef := p.getD j (.sig 0)

/-- The dynamic state of node `j`. -/
def stAt (σ : EState) (j : Nat) : NodeSt := σ.getD j {}

/-- Replace the dynamic state of node `j`. -/
def setSt (σ : EState) (j : Nat) (n : NodeSt) : EState := σ.set j n

/-- The result of running a compute/effect body: a value, or `err` when the
user-supplied function threw (the exception propagates to the caller of
`get()`). -/
inductive Res where
  | val : Int → Res
  | err : Res
deriving DecidableEq, Repr

/-- Whether node `j` currently observes other nodes: a `ComputedSignal`
always does, an effect does unless disposed, a `Signal` never does. -/
def isObserver (p : Program) (σ : EState) (j : Nat) : Bool :=
  match defAt p j with
  | .sig _ => false
  | .comp _ => true
  | .eff _ => !(stAt σ j).disposed

/-- Modelled from the spec: the subscribers of node `i` — the computations
whose current dependency set contains `i` — in subscription (= creation =
id) order. -/
def subsOf (p : Program) (σ : EState) (i : Nat) : List Nat :=
  (List.range p.length).filter fun j =>
    isObserver p σ j && (stAt σ j).deps.contains i

/-- Modelled from the spec: evaluation of a compute/effect body with
dependency tracking, parameterized by the `pull` operation used by `read`.
Returns the updated graph state, the result, and the list of node ids read
during the run (the run's dependency set, in read order). -/
def evalB (pull : EState → Nat → EState × Res) :
    EState → Expr → EState × Res × List Nat
  | σ, .lit n => (σ, .val n, [])
  | σ, .boom => (σ, .err, [])
  | σ, .read j =>
    match pull σ j with
    | (σ1, r) => (σ1, r, [j])
  | σ, .add a b =>
    match evalB pull σ a with
    | (σ1, .err, ds1) => (σ1, .err, ds1)
    | (σ1, .val va, ds1) =>
      match evalB pull σ1 b with
      | (σ2, .err, ds2) => (σ2, .err, ds1 ++ ds2)
      | (σ2, .val vb, ds2) => (σ2, .val (va + vb), ds1 ++ ds2)
  | σ, .mul a b =>
    match evalB pull σ a with
    | (σ1, .err, ds1) => (σ1, .err, ds1)
    | (σ1, .val va, ds1) =>
      match evalB pull σ1 b with
      | (σ2, .err, ds2) => (σ2, .err, ds1 ++ ds2)
      | (σ2, .val vb, ds2) => (σ2, .val (va * vb), ds1 ++ ds2)
  | σ, .ifnz c t f =>
    match evalB pull σ c with
    | (σ1, .err, ds1) => (σ1, .err, ds1)
    | (σ1, .val vc, ds1) =>
      if vc ≠ 0 then
        match evalB pull σ1 t with
        | (σ2, r, ds2) => (σ2, r, ds1 ++ ds2)
      else
        match evalB pull σ1 f with
        | (σ2, r, ds2) => (σ2, r, ds1 ++ ds2)

/-- Modelled from the spec: `get()` on node `j`.  A `Signal` returns its
value.  A clean `ComputedSignal` returns the cached value without running
its compute function; a dirty one lazily re-runs the compute body with
dependency tracking, and the run's read set replaces the previous
dependency set.  If the body throws, the error propagates, `dirty` stays
true and the cache is untouched.  Effects are not readable.  `fuel` bounds
the nesting depth of lazy pulls; `p.length + 1` suffices on dependency
DAGs. -/
def pullC (p : Program) : Nat → EState → Nat → EState × Res
  | 0, σ, _ => (σ, .err)
  | fuel + 1, σ, j =>
    match defAt p j with
    | .sig _ => (σ, .val (stAt σ j).value)
    | .eff _ => (σ, .err)
    | .comp body =>
      if (stAt σ j).dirty then
        match evalB (pullC p fuel) σ body with
        | (σ1, .val v, ds) =>
          (setSt σ1 j
            { value := v
              dirty := false
              deps := ds
              runs := (stAt σ1 j).runs + 1
              disposed := false }, .val v)
        | (σ1, .err, ds) =>
          (setSt σ1 j
            { stAt σ1 j with
              deps := ds
              runs := (stAt σ1 j).runs + 1 },
           .err)
      else (σ, .val (stAt σ j).value)

/-- The default pull fuel: one more than the number of nodes, enough for any
chain of lazy pulls on an acyclic dependency graph. -/
def fuelOf (p : Program) : Nat := p.length + 1

/-- `get()` on node `j` with the default fuel. -/
def getC (p : Program) (σ : EState) (j : Nat) : EState × Res :=
  pullC p (fuelOf p) σ j

/-- Modelled from the spec: deliver a change notification from `src` to the
targets `ts` (a snapshot of `src`'s subscribers, in subscription order).
A dependent `ComputedSignal` is marked dirty and, when it was clean, the
dirty bit is pushed on to its own subscribers — via `deep`, the
deeper-propagation operation — without recomputation; a dependent
non-disposed effect re-runs synchronously, its run's read set replacing
its dependency set.  Returns the updated state and the event log: one
`(src, target)` pair per notification delivered, in delivery order. -/
def notifyList (p : Program) (deep : EState → Nat → EState × List (Nat × Nat)) :
    EState → Nat → List Nat → EState × List (Nat × Nat)
  | σ, _, [] => (σ, [])
  | σ, src, t :: ts =>
    match defAt p t with
    | .sig _ =>
      match notifyList p deep σ src ts with
      | (σ', log) => (σ', (src, t) :: log)
    | .comp _ =>
      if (stAt σ t).dirty then
        match notifyList p deep σ src ts with
        | (σ', log) => (σ', (src, t) :: log)
      else
        match deep (setSt σ t { stAt σ t with dirty := true }) t with
        | (σ2, log2) =>
          match notifyList p deep σ2 src ts with
          | (σ', log3) => (σ', (src, t) :: (log2 ++ log3))
    | .eff body =>
      if (stAt σ t).disposed then
        match notifyList p deep σ src ts with
        | (σ', log) => (σ', (src, t) :: log)
      else
        match evalB (pullC p (fuelOf p)) σ body with
        | (σ1, _, ds) =>
          match notifyList p deep
              (setSt σ1 t
                { stAt σ1 t with
                  deps := ds
                  runs := (stAt σ1 t).runs + 1
                  dirty := false }) src ts with
          | (σ', log) => (σ', (src, t) :: log)

/-- Modelled from the spec: propagate a change of node `src` to its current
subscribers (and, transitively, the dirty bit through clean
ComputedSignals).  `fuel` bounds the propagation depth; `p.length + 1`
suffices on dependency DAGs. -/
def notifyFrom (p : Program) : Nat → EState → Nat → EState × List (Nat × Nat)
  | 0, σ, _ => (σ, [])
  | fuel + 1, σ, src => notifyList p (notifyFrom p fuel) σ src (subsOf p σ src)

/-- Modelled from the spec: `Signal.set(v)`.  If `v` equals the current
value (value equality for the primitive payload) nothing happens at all.
Otherwise the value is updated and every current subscriber is notified,
synchronously, before `set` returns — the whole invalidation / re-run
cascade is performed inside this call.  Returns the new state and the
notification log. -/
def setSig (p : Program) (σ : EState) (i : Nat) (v : Int) :
    EState × List (Nat × Nat) :=
  match defAt p i with
  | .sig _ =>
    if (stAt σ i).value = v then (σ, [])
    else notifyFrom p (fuelOf p) (setSt σ i { stAt σ i with value := v }) i
  | _ => (σ, [])

/-- Modelled from the spec: the initial dynamic state — Signals hold their
initial values and are never dirty; ComputedSignals start dirty (their
first computation happens lazily on first read); effects have not yet
run. -/
def initSt (p : Program) : EState :=
  p.map fun d =>
    match d with
    | .sig v => { value := v, dirty := false }
    | .comp _ => {}
    | .eff _ => {}

/-- Run effect `j` once, eagerly, as `effect(fn)` does at registration time:
the body runs with dependency tracking and establishes the initial
dependency set. -/
def runEff (p : Program) (σ : EState) (j : Nat) : EState :=
  match defAt p j with
  | .eff body =>
    match evalB (pullC p (fuelOf p)) σ body with
    | (σ1, _, ds) =>
      setSt σ1 j
        { stAt σ1 j with
          deps := ds
          runs := (stAt σ1 j).runs + 1
          dirty := false }
  | _ => σ

/-- Modelled from the spec: bring the program up — create every node in id
order, running each effect once eagerly at its registration. -/
def boot (p : Program) : EState :=
  (List.range p.length).foldl (runEff p) (initSt p)

/-- Modelled from the spec: the disposer returned by `effect(fn)` —
unsubscribes the effect from all current dependencies, permanently. -/
def dispose (σ : EState) (j : Nat) : EState :=
  setSt σ j { stAt σ j with deps := [], disposed := true }

/-- Apply a sequence of `set()` calls `(signal id, value)` in order. -/
def applySets (p : Program) (σ : EState) : List (Nat × Int) → EState
  | [] => σ
  | op :: rest => applySets p (setSig p σ op.1 op.2).1 rest

/-- How often node `j`'s compute/effect function has run. -/
def runsOf (σ : EState) (j : Nat) : Nat := (stAt σ j).runs

/-- The current value (signal value / computed cache) of node `j`. -/
def valueOf (σ : EState) (j : Nat) : Int := (stAt σ j).value

/-- Whether node `j` is currently dirty. -/
def dirtyOf (σ : EState) (j : Nat) : Bool := (stAt σ j).dirty

/-- The spec's first concrete scenario:
`const count = Signal(0); const doubled = ComputedSignal(() => count.get()*2)`.
Node 0 is `count`, node 1 is `doubled`. -/
def P2 : Program := [.sig 0, .comp (.mul (.read 0) (.lit 2))]

/-- The spec's idempotence scenario:
`const a = Signal(1); let runs=0; effect(() => { a.get(); runs++ })`.
Node 0 is `a`, node 1 is the effect. -/
def P3 : Program := [.sig 1, .eff (.read 0)]

/-- A Signal observed by one effect, for the synchronous-notification
scenario.  Node 0 is the Signal, node 1 is the effect. -/
def P4 : Program := [.sig 1, .eff (.read 0)]

/-- The spec's dynamic-dependency scenario: Signals `A` (node 0, value 10),
`B` (node 1, value 20), `C` (node 2, value 1) and a ComputedSignal `D`
(node 3) that reads `A` when `C ≠ 0` and `B` otherwise. -/
def P5 : Program :=
  [.sig 10, .sig 20, .sig 1, .comp (.ifnz (.read 2) (.read 0) (.read 1))]

/-- A throwing-compute scenario: Signal `flag` (node 0, value 1) and a
ComputedSignal (node 1) whose compute function throws while `flag ≠ 0`
and returns 7 once `flag = 0`. -/
def P6 : Program := [.sig 1, .comp (.ifnz (.read 0) .boom (.lit 7))]

/-- A disposal scenario: Signal (node 0) observed by one effect (node 1). -/
def P7 : Program := [.sig 0, .eff (.read 0)]

/-- Whether node `a` is declared as a `ComputedSignal`. -/
def isComp (p : Program) (a : Nat) : Bool :=
  match defAt p a with
  | .comp _ => true
  | _ => false

/-- Dynamic-dependency scenario, step 0: the booted state of `P5`. -/
def P5s0 : EState := boot P5

/-- Step 1: after the first read of `D` (which reads `C` then `A`). -/
def P5s1 : EState := (getC P5 P5s0 3).1

/-- Step 2: after `C.set(0)`. -/
def P5s2 : EState := (setSig P5 P5s1 2 0).1

/-- Step 3: after the next read of `D` (which now reads `C` then `B`). -/
def P5s3 : EState := (getC P5 P5s2 3).1

/-- Step 4: after `A.set(999)` — `A` no longer has subscribers. -/
def P5s4 : EState := (setSig P5 P5s3 0 999).1

/-- Throwing-compute scenario, step 0: the booted state of `P6`. -/
def P6s0 : EState := boot P6

/-- Step 1: after the first (throwing) read of the ComputedSignal. -/
def P6s1 : EState := (getC P6 P6s0 1).1

/-- Step 2: after the second (again throwing) read. -/
def P6s2 : EState := (getC P6 P6s1 1).1

/-- Step 3: after `flag.set(0)`. -/
def P6s3 : EState := (setSig P6 P6s2 0 0).1

/-- Disposal scenario, step 0: the booted state of `P7` (the effect has run
once eagerly). -/
def P7s0 : EState := boot P7

/-- Step 1: after `set(5)` on the Signal (the effect has re-run). -/
def P7s1 : EState := (setSig P7 P7s0 0 5).1

/-- Step 2: after calling the effect's disposer. -/
def P7s2 : EState := dispose P7s1 1

end Signals

section Helpers

/-- Every difficulty range in the main script's table is nonempty. -/
theorem difficultyRanges_le (d : Nat) (mn mx : Int)
    (h : App.difficultyRanges d = some (mn, mx)) : mn ≤ mx := by
  rcases d with _ | _ | _ | _ | _ | d <;>
    simp [App.difficultyRanges] at h <;> omega

/-- One seed step of `__nextRand` keeps the seed in `1..22` (exhaustive
check over the 22 possible seeds; 23 is prime and 7 is not a multiple of
23, so the seed never collapses to 0). -/
theorem seedStep_bound :
    ∀ s : Nat, s < 23 → 1 ≤ s → 1 ≤ s * 7 % 23 ∧ s * 7 % 23 ≤ 22 := by
  decide

/-- Euclidean remainder bounds for a nonnegative dividend and positive
modulus (JavaScript `%` agrees with `Int.emod` on such operands). -/
theorem emod_bound (s m : Int) (_hs : 0 ≤ s) (hm : 0 < m) :
    0 ≤ s % m ∧ s % m < m :=
  ⟨Int.emod_nonneg s (ne_of_gt hm), Int.emod_lt_of_pos s hm⟩

/-- Bounds for the `Math.random` path: `⌊r * m⌋` lies in `0..m-1` when
`0 ≤ r < 1` and `0 < m`. -/
theorem floor_sample_bound (r : ℚ) (m : Int) (hr0 : 0 ≤ r) (hr1 : r < 1)
    (hm : 0 < m) : 0 ≤ ⌊r * (m : ℚ)⌋ ∧ ⌊r * (m : ℚ)⌋ < m := by
  constructor
  · exact Int.floor_nonneg.mpr (mul_nonneg hr0 (by exact_mod_cast hm.le))
  · rw [Int.floor_lt]
    calc r * (m : ℚ) < 1 * (m : ℚ) :=
          mul_lt_mul_of_pos_right hr1 (by exact_mod_cast hm)
      _ = (m : ℚ) := one_mul _

/-- Closed form of the `k`-th output of a `__nextRand` run: it depends only
on the starting seed, the position `k`, and the `(min, max)` arguments of
the `k`-th call — the seed evolves as `seed * 7^(k+1) % 23` regardless of
the arguments. -/
theorem runFrom_get? (args : List (Int × Int)) : ∀ (seed k : Nat),
    k < args.length →
    (Rand.runFrom seed args).get? k =
      (args.get? k).map (fun pr =>
        pr.1 + ((seed * 7 ^ (k + 1) % 23 : Nat) : Int) % (pr.2 - pr.1 + 1)) := by
  induction args with
  | nil => intro seed k hk; simp at hk
  | cons a rest ih =>
    intro seed k hk
    cases k with
    | zero => simp [Rand.runFrom, pow_one]
    | succ k =>
      have hk' : k < rest.length := by simpa using hk
      have key : seed * 7 % 23 * 7 ^ (k + 1) % 23 = seed * 7 ^ (k + 1 + 1) % 23 := by
        rw [Nat.mod_mul_mod]
        congr 1
        ring
      simp only [Rand.runFrom, List.get?_cons_succ]
      rw [ih ((seed * 7) % 23) k hk']
      rw [key]

end Helpers

/-- Claim C1 (evidence of the code/documentation divergence): in the main
script under `src/` the application state is a record of plain mutable
variables, and the increment handler updates the `count` field directly and
explicitly calls `render` — no Signal cell stores the state and no observer
is notified.  Evaluated at the concrete input (count 0, multiplier 7):
clicking increment yields state (1, 7) and the explicitly rendered display
string. -/
theorem C1_plain_variable_state :
    App.incrementClick ⟨0, 7⟩ = (⟨1, 7⟩, "1 × 7 = 7") := by rfl

/-- Claim C8 counterexample: the claimed equality of the app's
`difficultyRanges` and the page object's `DIFFICULTY_MAP` ranges fails — at
difficulty 2 the app uses [3, 8] while the page object advertises [4, 8],
so the universally quantified claim is false. -/
theorem C8_counterexample :
    App.difficultyRanges 2 = some (3, 8) ∧
    (POM.DIFFICULTY_MAP 2).map POM.range = some (4, 8) ∧
    ¬ ∀ d : Nat, 1 ≤ d → d ≤ 4 →
        App.difficultyRanges d = (POM.DIFFICULTY_MAP d).map POM.range := by
  refine ⟨rfl, rfl, fun h => ?_⟩
  have h2 := h 2 (by omega) (by omega)
  exact absurd h2 (by decide)

/-- Claim C8 amended: the two difficulty tables agree at levels 1 ([2,5])
and 4 ([10,20]) and their maxima agree everywhere, but at level 2 the app
uses [3,8] where the page object advertises [4,8], and at level 3 the app
uses [5,12] where the page object advertises [6,12]. -/
theorem C8_amended :
    App.difficultyRanges 1 = some (2, 5) ∧
    (POM.DIFFICULTY_MAP 1).map POM.range = some (2, 5) ∧
    App.difficultyRanges 4 = some (10, 20) ∧
    (POM.DIFFICULTY_MAP 4).map POM.range = some (10, 20) ∧
    App.difficultyRanges 2 = some (3, 8) ∧
    (POM.DIFFICULTY_MAP 2).map POM.range = some (4, 8) ∧
    App.difficultyRanges 3 = some (5, 12) ∧
    (POM.DIFFICULTY_MAP 3).map POM.range = some (6, 12) :=
  ⟨rfl, rfl, rfl, rfl, rfl, rfl, rfl, rfl⟩

/-- Claim C9: for every difficulty key in the table with range [mn, mx],
`randomMultiplier` returns a value `v` with `mn ≤ v ≤ mx` on both paths —
the deterministic `__nextRand` path (any seed in 1..22, which is where the
seed stays) and the `Math.random` path (any sample `0 ≤ r < 1`); the seed
after the call is again in 1..22. -/
theorem C9_randomMultiplier_in_range (testMode : Bool) (d : Nat)
    (mn mx : Int) (seed : Nat) (r : ℚ)
    (hd : App.difficultyRanges d = some (mn, mx))
    (hs1 : 1 ≤ seed) (hs2 : seed ≤ 22) (hr0 : 0 ≤ r) (hr1 : r < 1) :
    ∃ s' v, Rand.randomMultiplier testMode seed r d = some (s', v) ∧
      mn ≤ v ∧ v ≤ mx ∧ 1 ≤ s' ∧ s' ≤ 22 := by
  have hle : mn ≤ mx := difficultyRanges_le d mn mx hd
  have hm : (0 : Int) < mx - mn + 1 := by omega
  unfold Rand.randomMultiplier
  rw [hd]
  cases testMode with
  | true =>
    refine ⟨seed * 7 % 23, mn + ((seed * 7 % 23 : Nat) : Int) % (mx - mn + 1),
      by simp [Rand.nextRandStep], ?_⟩
    have hb := seedStep_bound seed (by omega) hs1
    have he := emod_bound ((seed * 7 % 23 : Nat) : Int) (mx - mn + 1)
      (by positivity) hm
    omega
  | false =>
    refine ⟨seed, mn + ⌊r * (((mx - mn + 1 : Int)) : ℚ)⌋, by simp, ?_⟩
    have hf := floor_sample_bound r (mx - mn + 1) hr0 hr1 hm
    omega

/-- Claim C9 witness: the theorem applied at test mode, difficulty 3,
initial seed 1 and sample 0. -/
theorem C9_witness :
    ∃ s' v, Rand.randomMultiplier true 1 0 3 = some (s', v) ∧
      5 ≤ v ∧ v ≤ 12 ∧ 1 ≤ s' ∧ s' ≤ 22 :=
  C9_randomMultiplier_in_range true 3 5 12 1 0 rfl (by omega) (by omega)
    le_rfl (by norm_num)

/-- Claim C10: in test mode, multiplier generation is deterministic — the
`k`-th value returned by `__nextRand` is a function only of `k` and the
arguments of the first `k+1` calls (the seed starts at 1 and evolves as
`seed := seed * 7 % 23`, independently of the arguments), so two runs whose
first `k+1` calls agree observe the same `k`-th value; and in test mode
`randomMultiplier` does not depend on the `Math.random` sample at all. -/
theorem C10_test_mode_deterministic (args1 args2 : List (Int × Int))
    (k : Nat) (h1 : k < args1.length) (h2 : k < args2.length)
    (hpre : args1.take (k + 1) = args2.take (k + 1)) :
    (Rand.nextRandRun args1).get? k = (Rand.nextRandRun args2).get? k ∧
    ∀ (seed : Nat) (r r' : ℚ) (d : Nat),
      Rand.randomMultiplier true seed r d =
        Rand.randomMultiplier true seed r' d := by
  constructor
  · have hargs : args1.get? k = args2.get? k := by
      have t1 : (args1.take (k + 1)).get? k = args1.get? k :=
        List.get?_take (by omega)
      have t2 : (args2.take (k + 1)).get? k = args2.get? k :=
        List.get?_take (by omega)
      rw [← t1, ← t2, hpre]
    unfold Rand.nextRandRun
    rw [runFrom_get? args1 1 k h1, runFrom_get? args2 1 k h2, hargs]
  · intro seed r r' d
    rfl

/-- Claim C10 witness: two concrete runs agreeing on their first two calls
agree on the second output. -/
theorem C10_witness :
    (Rand.nextRandRun [(2, 5), (3, 8)]).get? 1 =
      (Rand.nextRandRun [(2, 5), (3, 8), (10, 20)]).get? 1 ∧
    ∀ (seed : Nat) (r r' : ℚ) (d : Nat),
      Rand.randomMultiplier true seed r d =
        Rand.randomMultiplier true seed r' d :=
  C10_test_mode_deterministic [(2, 5), (3, 8)] [(2, 5), (3, 8), (10, 20)] 1
    (by decide) (by decide) rfl

/-- Claim C3: calling `set(v)` with `v` equal to the current value is a
no-op: the state (hence every run counter and every cached value) is
unchanged and no notification at all is delivered; moreover, on the spec's
concrete scenario `P3` (`a = Signal(1)` observed by one effect), the effect
has run exactly once at registration and `a.set(1)` leaves that count at
one. -/
theorem C3_set_equal_noop (p : Signals.Program) (σ : Signals.EState)
    (i : Nat) (v : Int) (hv : (Signals.stAt σ i).value = v) :
    Signals.setSig p σ i v = (σ, []) ∧
    Signals.runsOf (Signals.boot Signals.P3) 1 = 1 ∧
    Signals.runsOf
      (Signals.setSig Signals.P3 (Signals.boot Signals.P3) 0 1).1 1 = 1 := by
  refine ⟨?_, by decide, by decide⟩
  unfold Signals.setSig
  cases hdef : Signals.defAt p i with
  | sig w => simp [hv]
  | comp b => rfl
  | eff b => rfl

/-- Claim C3 witness: the theorem applied to the scenario program `P3` at
its booted state, setting `a` to its current value 1. -/
theorem C3_witness :
    Signals.setSig Signals.P3 (Signals.boot Signals.P3) 0 1 =
      (Signals.boot Signals.P3, []) ∧
    Signals.runsOf (Signals.boot Signals.P3) 1 = 1 ∧
    Signals.runsOf
      (Signals.setSig Signals.P3 (Signals.boot Signals.P3) 0 1).1 1 = 1 :=
  C3_set_equal_noop Signals.P3 (Signals.boot Signals.P3) 0 1 (by decide)

/-- Claim C2: on the spec's scenario `P2` (`count = Signal(0)`,
`doubled = ComputedSignal(() => count.get() * 2)`), after `count.set(v)`
a read of `doubled` returns `v * 2` for every `v` — in particular 10 after
`count.set(5)` — so the ComputedSignal reflects the most recent value of
its dependency. -/
theorem C2_computed_reflects_set :
    (∀ v : Int,
      (Signals.getC Signals.P2
        (Signals.setSig Signals.P2 (Signals.boot Signals.P2) 0 v).1 1).2 =
        Signals.Res.val (v * 2)) ∧
    (Signals.getC Signals.P2
      (Signals.setSig Signals.P2 (Signals.boot Signals.P2) 0 5).1 1).2 =
      Signals.Res.val 10 := by
  constructor
  · intro v
    by_cases h : (0 : Int) = v
    · subst h; decide
    · have hs : Signals.setSig Signals.P2 (Signals.boot Signals.P2) 0 v =
          if (0 : Int) = v then (Signals.boot Signals.P2, [])
          else (Signals.setSt (Signals.boot Signals.P2) 0
            { Signals.stAt (Signals.boot Signals.P2) 0 with value := v },
            []) := rfl
      rw [hs, if_neg h]
      rfl
  · decide

/-- Reading back the node just written (when it exists). -/
theorem stAt_setSt_self (σ : Signals.EState) (j : Nat) (n : Signals.NodeSt)
    (h : j < σ.length) : Signals.stAt (Signals.setSt σ j n) j = n := by
  simp [Signals.stAt, Signals.setSt, List.getD,
    List.getElem?_set_eq_of_lt n h]

/-- Writing node `j` leaves every other node unchanged. -/
theorem stAt_setSt_ne (σ : Signals.EState) (i j : Nat) (n : Signals.NodeSt)
    (h : i ≠ j) : Signals.stAt (Signals.setSt σ j n) i = Signals.stAt σ i := by
  simp [Signals.stAt, Signals.setSt, List.getD, List.getElem?_set_ne h.symm]

/-- Claim C5: the memoization invariant of `ComputedSignal.get()` — a read
of a clean ComputedSignal returns the cached value with no state change
(hence no compute run); a read of a dirty one re-runs the compute body and
the run's read set replaces the previous dependency set; and, on the
dynamic-dependency scenario `P5` (`D` reads `A` when `C ≠ 0`, else `B`),
after `C` changes from 1 to 0 the dependency set of `D` switches from
`[C, A]` to `[C, B]`, a later `A.set(999)` finds no subscribers, delivers
no notification, and leaves `D` clean, and the next read of `D` is served
from the cache without another compute run. -/
theorem C5_memoization_dynamic_deps (p : Signals.Program)
    (σ : Signals.EState) (j fuel : Nat) (body : Signals.Expr)
    (hc : Signals.defAt p j = .comp body) :
    ((Signals.stAt σ j).dirty = false →
      Signals.pullC p (fuel + 1) σ j = (σ, .val (Signals.stAt σ j).value)) ∧
    (∀ σ1 v ds, (Signals.stAt σ j).dirty = true →
      Signals.evalB (Signals.pullC p fuel) σ body = (σ1, .val v, ds) →
      Signals.pullC p (fuel + 1) σ j =
        (Signals.setSt σ1 j
          { value := v
            dirty := false
            deps := ds
            runs := (Signals.stAt σ1 j).runs + 1
            disposed := false }, .val v)) ∧
    ((Signals.getC Signals.P5 Signals.P5s0 3).2 = .val 10 ∧
      (Signals.stAt Signals.P5s1 3).deps = [2, 0]) ∧
    (Signals.stAt Signals.P5s2 3).dirty = true ∧
    ((Signals.getC Signals.P5 Signals.P5s2 3).2 = .val 20 ∧
      (Signals.stAt Signals.P5s3 3).deps = [2, 1]) ∧
    Signals.subsOf Signals.P5 Signals.P5s3 0 = [] ∧
    ((Signals.setSig Signals.P5 Signals.P5s3 0 999).2 = [] ∧
      (Signals.stAt Signals.P5s4 3).dirty = false ∧
      Signals.runsOf Signals.P5s4 3 = 2) ∧
    Signals.getC Signals.P5 Signals.P5s4 3 = (Signals.P5s4, .val 20) := by
  refine ⟨?_, ?_, by decide, by decide, by decide, by decide, by decide,
    by decide⟩
  · intro hclean
    simp [Signals.pullC, hc, hclean]
  · intro σ1 v ds hdirty heval
    simp [Signals.pullC, hc, hdirty, heval]

/-- Claim C5 witness: the theorem applied to the scenario program `P5` at
node `D` (id 3) and its compute body. -/
theorem C5_witness :
    Signals.pullC Signals.P5 (0 + 1) Signals.P5s1 3 =
      (Signals.P5s1, .val (Signals.stAt Signals.P5s1 3).value) ∧
    Signals.subsOf Signals.P5 Signals.P5s3 0 = [] :=
  ⟨(C5_memoization_dynamic_deps Signals.P5 Signals.P5s1 3 0
      (.ifnz (.read 2) (.read 0) (.read 1)) (by decide)).1 (by decide),
   (C5_memoization_dynamic_deps Signals.P5 Signals.P5s1 3 0
      (.ifnz (.read 2) (.read 0) (.read 1)) (by decide)).2.2.2.2.2.1⟩

/-- Claim C6: when a ComputedSignal's compute function throws during
`get()`, the failure propagates to the reader, the node stays dirty (the
error is never cached as a value), its run counter still advances, and the
cached value is untouched; and, on the scenario `P6` (compute throws while
`flag ≠ 0`), the first two reads both propagate the error and both re-run
the compute function (runs 1 then 2) with the node still dirty, and after
`flag.set(0)` a read succeeds with 7, caches it, and clears dirty. -/
theorem C6_throwing_compute (p : Signals.Program) (σ σ1 : Signals.EState)
    (j fuel : Nat) (body : Signals.Expr) (ds : List Nat)
    (hc : Signals.defAt p j = .comp body)
    (hdirty : (Signals.stAt σ j).dirty = true)
    (heval : Signals.evalB (Signals.pullC p fuel) σ body = (σ1, .err, ds))
    (hkeep : Signals.stAt σ1 j = Signals.stAt σ j) (hlen : j < σ1.length) :
    (Signals.pullC p (fuel + 1) σ j).2 = .err ∧
    (Signals.stAt (Signals.pullC p (fuel + 1) σ j).1 j).dirty = true ∧
    (Signals.stAt (Signals.pullC p (fuel + 1) σ j).1 j).runs =
      (Signals.stAt σ j).runs + 1 ∧
    (Signals.stAt (Signals.pullC p (fuel + 1) σ j).1 j).value =
      (Signals.stAt σ j).value ∧
    ((Signals.getC Signals.P6 Signals.P6s0 1).2 = .err ∧
      Signals.dirtyOf Signals.P6s1 1 = true ∧
      Signals.runsOf Signals.P6s1 1 = 1) ∧
    ((Signals.getC Signals.P6 Signals.P6s1 1).2 = .err ∧
      Signals.dirtyOf Signals.P6s2 1 = true ∧
      Signals.runsOf Signals.P6s2 1 = 2) ∧
    ((Signals.getC Signals.P6 Signals.P6s3 1).2 = .val 7 ∧
      Signals.dirtyOf (Signals.getC Signals.P6 Signals.P6s3 1).1 1 = false ∧
      Signals.runsOf (Signals.getC Signals.P6 Signals.P6s3 1).1 1 = 3) := by
  have hred : Signals.pullC p (fuel + 1) σ j =
      (Signals.setSt σ1 j
        { Signals.stAt σ1 j with
          deps := ds
          runs := (Signals.stAt σ1 j).runs + 1 }, .err) := by
    simp [Signals.pullC, hc, hdirty, heval]
  refine ⟨by rw [hred], ?_, ?_, ?_, by decide, by decide, by decide⟩ <;>
    rw [hred] <;>
    simp [stAt_setSt_self σ1 j _ hlen, hkeep, hdirty]

/-- Claim C6 witness: the theorem applied to the scenario program `P6` at
its booted state, where the compute body throws. -/
theorem C6_witness :
    (Signals.pullC Signals.P6 (2 + 1) Signals.P6s0 1).2 = .err ∧
    (Signals.stAt (Signals.pullC Signals.P6 (2 + 1) Signals.P6s0 1).1 1).dirty
      = true :=
  have h := C6_throwing_compute Signals.P6 Signals.P6s0 Signals.P6s0
    1 2 (.ifnz (.read 0) .boom (.lit 7)) [0]
    (by decide) (by decide) (by decide) (by decide) (by decide)
  ⟨h.1, h.2.1⟩

/-- Body evaluation preserves any state property that the `pull` operation
preserves. -/
theorem evalB_pres (pull : Signals.EState → Nat → Signals.EState × Signals.Res)
    (P : Signals.EState → Prop)
    (hpull : ∀ σ i, P σ → P (pull σ i).1) :
    ∀ (e : Signals.Expr) (σ : Signals.EState), P σ → P (Signals.evalB pull σ e).1 := by
  intro e
  induction e with
  | lit n => intro σ h; exact h
  | boom => intro σ h; exact h
  | read j =>
    intro σ h
    have := hpull σ j h
    rcases hp : pull σ j with ⟨σ1, r⟩
    rw [hp] at this
    simpa [Signals.evalB, hp] using this
  | add a b iha ihb =>
    intro σ h
    have h1 := iha σ h
    rcases hA : Signals.evalB pull σ a with ⟨σ1, r1, ds1⟩
    rw [hA] at h1
    cases r1 with
    | err => simpa [Signals.evalB, hA] using h1
    | val v =>
      have h2 := ihb σ1 h1
      rcases hB : Signals.evalB pull σ1 b with ⟨σ2, r2, ds2⟩
      rw [hB] at h2
      cases r2 <;> simpa [Signals.evalB, hA, hB] using h2
  | mul a b iha ihb =>
    intro σ h
    have h1 := iha σ h
    rcases hA : Signals.evalB pull σ a with ⟨σ1, r1, ds1⟩
    rw [hA] at h1
    cases r1 with
    | err => simpa [Signals.evalB, hA] using h1
    | val v =>
      have h2 := ihb σ1 h1
      rcases hB : Signals.evalB pull σ1 b with ⟨σ2, r2, ds2⟩
      rw [hB] at h2
      cases r2 <;> simpa [Signals.evalB, hA, hB] using h2
  | ifnz c t f ihc iht ihf =>
    intro σ h
    have h1 := ihc σ h
    rcases hC : Signals.evalB pull σ c with ⟨σ1, r1, ds1⟩
    rw [hC] at h1
    cases r1 with
    | err => simpa [Signals.evalB, hC] using h1
    | val vc =>
      by_cases hv : vc ≠ 0
      · have h2 := iht σ1 h1
        rcases hT : Signals.evalB pull σ1 t with ⟨σ2, r2, ds2⟩
        rw [hT] at h2
        simpa [Signals.evalB, hC, hT, hv] using h2
      · have h2 := ihf σ1 h1
        rcases hF : Signals.evalB pull σ1 f with ⟨σ2, r2, ds2⟩
        rw [hF] at h2
        simpa [Signals.evalB, hC, hF, hv] using h2

/-- `get()` never writes an effect node: only ComputedSignal states are
updated by a pull. -/
theorem pullC_keeps_effects (p : Signals.Program) (j : Nat) (b : Signals.Expr)
    (hj : Signals.defAt p j = .eff b) :
    ∀ (fuel : Nat) (σ : Signals.EState) (i : Nat),
      Signals.stAt (Signals.pullC p fuel σ i).1 j = Signals.stAt σ j := by
  intro fuel
  induction fuel with
  | zero => intro σ i; rfl
  | succ fuel ih =>
    intro σ i
    cases hdef : Signals.defAt p i with
    | sig w => simp [Signals.pullC, hdef]
    | eff bb => simp [Signals.pullC, hdef]
    | comp body =>
      have hij : i ≠ j := by
        intro hEq
        rw [hEq, hj] at hdef
        cases hdef
      by_cases hd : (Signals.stAt σ i).dirty
      · have hpres := evalB_pres (Signals.pullC p fuel)
          (fun τ => Signals.stAt τ j = Signals.stAt σ j)
          (fun τ i' h => by
            show Signals.stAt (Signals.pullC p fuel τ i').1 j = Signals.stAt σ j
            rw [ih τ i']
            exact h) body σ rfl
        rcases hE : Signals.evalB (Signals.pullC p fuel) σ body with ⟨σ1, r, ds⟩
        rw [hE] at hpres
        cases r with
        | val v =>
          simp only [Signals.pullC, hdef, hd, if_true, hE]
          rw [stAt_setSt_ne σ1 j i _ (Ne.symm hij)]
          exact hpres
        | err =>
          simp only [Signals.pullC, hdef, hd, if_true, hE]
          rw [stAt_setSt_ne σ1 j i _ (Ne.symm hij)]
          exact hpres
      · simp [Signals.pullC, hdef, hd]

/-- Notification delivery never touches a disposed effect node, provided
deeper propagation does not either. -/
theorem notifyList_keeps_disposed (p : Signals.Program) (j : Nat)
    (b : Signals.Expr) (hj : Signals.defAt p j = .eff b)
    (deep : Signals.EState → Nat → Signals.EState × List (Nat × Nat))
    (hdeep : ∀ σ t, (Signals.stAt σ j).disposed = true →
      Signals.stAt (deep σ t).1 j = Signals.stAt σ j) :
    ∀ (ts : List Nat) (σ : Signals.EState) (src : Nat),
      (Signals.stAt σ j).disposed = true →
      Signals.stAt (Signals.notifyList p deep σ src ts).1 j =
        Signals.stAt σ j := by
  intro ts
  induction ts with
  | nil => intro σ src _; rfl
  | cons t ts ih =>
    intro σ src hd
    cases hdef : Signals.defAt p t with
    | sig w =>
      rcases hN : Signals.notifyList p deep σ src ts with ⟨σ', log⟩
      have := ih σ src hd
      rw [hN] at this
      simpa [Signals.notifyList, hdef, hN] using this
    | comp body =>
      by_cases hdt : (Signals.stAt σ t).dirty
      · rcases hN : Signals.notifyList p deep σ src ts with ⟨σ', log⟩
        have := ih σ src hd
        rw [hN] at this
        simpa [Signals.notifyList, hdef, hdt, hN] using this
      · have htj : t ≠ j := by
          intro hEq
          rw [hEq, hj] at hdef
          cases hdef
        have h1 : Signals.stAt
            (Signals.setSt σ t { Signals.stAt σ t with dirty := true }) j =
            Signals.stAt σ j := stAt_setSt_ne σ j t _ (Ne.symm htj)
        have hd1 : (Signals.stAt
            (Signals.setSt σ t { Signals.stAt σ t with dirty := true }) j).disposed
            = true := by rw [h1]; exact hd
        have h2 := hdeep (Signals.setSt σ t { Signals.stAt σ t with dirty := true })
          t hd1
        rcases hD : deep (Signals.setSt σ t { Signals.stAt σ t with dirty := true }) t
          with ⟨σ2, log2⟩
        rw [hD] at h2
        have hd2 : (Signals.stAt σ2 j).disposed = true := by
          rw [h2, h1]; exact hd
        have h3 := ih σ2 src hd2
        rcases hN : Signals.notifyList p deep σ2 src ts with ⟨σ', log3⟩
        rw [hN] at h3
        have : Signals.stAt (Signals.notifyList p deep σ src (t :: ts)).1 j =
            Signals.stAt σ' j := by
          simp [Signals.notifyList, hdef, hdt, hD, hN]
        rw [this, h3, h2, h1]
    | eff body =>
      by_cases hdt : (Signals.stAt σ t).disposed
      · rcases hN : Signals.notifyList p deep σ src ts with ⟨σ', log⟩
        have := ih σ src hd
        rw [hN] at this
        simpa [Signals.notifyList, hdef, hdt, hN] using this
      · have htj : t ≠ j := by
          intro hEq
          rw [hEq] at hdt
          exact hdt hd
        have hpres := evalB_pres (Signals.pullC p (Signals.fuelOf p))
          (fun τ => Signals.stAt τ j = Signals.stAt σ j)
          (fun τ i' h => by
            show Signals.stAt (Signals.pullC p (Signals.fuelOf p) τ i').1 j =
              Signals.stAt σ j
            rw [pullC_keeps_effects p j b hj (Signals.fuelOf p) τ i']
            exact h) body σ rfl
        rcases hE : Signals.evalB (Signals.pullC p (Signals.fuelOf p)) σ body
          with ⟨σ1, r, ds⟩
        rw [hE] at hpres
        have h1 : Signals.stAt
            (Signals.setSt σ1 t
              { Signals.stAt σ1 t with
                deps := ds
                runs := (Signals.stAt σ1 t).runs + 1
                dirty := false }) j = Signals.stAt σ1 j :=
          stAt_setSt_ne σ1 j t _ (Ne.symm htj)
        have hd2 : (Signals.stAt
            (Signals.setSt σ1 t
              { Signals.stAt σ1 t with
                deps := ds
                runs := (Signals.stAt σ1 t).runs + 1
                dirty := false }) j).disposed = true := by
          rw [h1, hpres]; exact hd
        have h3 := ih (Signals.setSt σ1 t
          { Signals.stAt σ1 t with
            deps := ds
            runs := (Signals.stAt σ1 t).runs + 1
            dirty := false }) src hd2
        rcases hN : Signals.notifyList p deep
            (Signals.setSt σ1 t
              { Signals.stAt σ1 t with
                deps := ds
                runs := (Signals.stAt σ1 t).runs + 1
                dirty := false }) src ts with ⟨σ', log⟩
        rw [hN] at h3
        have hgoal : Signals.stAt (Signals.notifyList p deep σ src (t :: ts)).1 j =
            Signals.stAt σ' j := by
          simp [Signals.notifyList, hdef, hdt, hE, hN]
        rw [hgoal, h3, h1, hpres]

/-- Change propagation never touches a disposed effect node. -/
theorem notifyFrom_keeps_disposed (p : Signals.Program) (j : Nat)
    (b : Signals.Expr) (hj : Signals.defAt p j = .eff b) :
    ∀ (fuel : Nat) (σ : Signals.EState) (src : Nat),
      (Signals.stAt σ j).disposed = true →
      Signals.stAt (Signals.notifyFrom p fuel σ src).1 j = Signals.stAt σ j := by
  intro fuel
  induction fuel with
  | zero => intro σ src _; rfl
  | succ fuel ih =>
    intro σ src hd
    exact notifyList_keeps_disposed p j b hj (Signals.notifyFrom p fuel)
      (fun τ t hdt => ih τ t hdt) (Signals.subsOf p σ src) σ src hd

/-- `set()` never touches a disposed effect node. -/
theorem setSig_keeps_disposed (p : Signals.Program) (σ : Signals.EState)
    (i : Nat) (v : Int) (j : Nat) (b : Signals.Expr)
    (hj : Signals.defAt p j = .eff b)
    (hd : (Signals.stAt σ j).disposed = true) :
    Signals.stAt (Signals.setSig p σ i v).1 j = Signals.stAt σ j := by
  cases hdef : Signals.defAt p i with
  | comp bb => simp [Signals.setSig, hdef]
  | eff bb => simp [Signals.setSig, hdef]
  | sig w =>
    by_cases hv : (Signals.stAt σ i).value = v
    · simp [Signals.setSig, hdef, hv]
    · have hij : i ≠ j := by
        intro hEq
        rw [hEq, hj] at hdef
        cases hdef
      have h1 : Signals.stAt
          (Signals.setSt σ i { Signals.stAt σ i with value := v }) j =
          Signals.stAt σ j := stAt_setSt_ne σ j i _ (Ne.symm hij)
      have hd1 : (Signals.stAt
          (Signals.setSt σ i { Signals.stAt σ i with value := v }) j).disposed
          = true := by rw [h1]; exact hd
      have h2 := notifyFrom_keeps_disposed p j b hj (Signals.fuelOf p)
        (Signals.setSt σ i { Signals.stAt σ i with value := v }) i hd1
      calc Signals.stAt (Signals.setSig p σ i v).1 j
          = Signals.stAt (Signals.notifyFrom p (Signals.fuelOf p)
              (Signals.setSt σ i { Signals.stAt σ i with value := v }) i).1 j := by
            simp [Signals.setSig, hdef, hv]
        _ = Signals.stAt σ j := by rw [h2, h1]

/-- No sequence of `set()` calls ever touches a disposed effect node. -/
theorem applySets_keeps_disposed (p : Signals.Program) (j : Nat)
    (b : Signals.Expr) (hj : Signals.defAt p j = .eff b) :
    ∀ (ops : List (Nat × Int)) (σ : Signals.EState),
      (Signals.stAt σ j).disposed = true →
      Signals.stAt (Signals.applySets p σ ops) j = Signals.stAt σ j := by
  intro ops
  induction ops with
  | nil => intro σ _; rfl
  | cons op rest ih =>
    intro σ hd
    have h1 := setSig_keeps_disposed p σ op.1 op.2 j b hj hd
    have hd1 : (Signals.stAt (Signals.setSig p σ op.1 op.2).1 j).disposed = true := by
      rw [h1]; exact hd
    calc Signals.stAt (Signals.applySets p σ (op :: rest)) j
        = Signals.stAt (Signals.applySets p (Signals.setSig p σ op.1 op.2).1 rest) j := rfl
      _ = Signals.stAt (Signals.setSig p σ op.1 op.2).1 j := ih _ hd1
      _ = Signals.stAt σ j := h1

/-- Claim C7: after the disposer returned by `effect(fn)` has been called,
no sequence of later `set()` calls (on tracked or untracked Signals alike)
ever re-runs the disposed effect — its whole node state, in particular its
run counter, is untouched; and on the scenario `P7` the effect runs once at
registration, re-runs on a real change, and after disposal two further
`set()` calls leave its run counter at 2. -/
theorem C7_dispose_permanent (p : Signals.Program) (σ : Signals.EState)
    (j : Nat) (b : Signals.Expr) (hj : Signals.defAt p j = .eff b)
    (hd : (Signals.stAt σ j).disposed = true) :
    (∀ ops : List (Nat × Int),
      Signals.stAt (Signals.applySets p σ ops) j = Signals.stAt σ j ∧
      Signals.runsOf (Signals.applySets p σ ops) j = Signals.runsOf σ j) ∧
    Signals.runsOf Signals.P7s0 1 = 1 ∧
    Signals.runsOf Signals.P7s1 1 = 2 ∧
    (Signals.stAt Signals.P7s2 1).disposed = true ∧
    Signals.runsOf (Signals.applySets Signals.P7 Signals.P7s2 [(0, 7), (0, 9)]) 1 = 2 := by
  refine ⟨fun ops => ?_, by decide, by decide, by decide, by decide⟩
  have h := applySets_keeps_disposed p j b hj ops σ hd
  exact ⟨h, by unfold Signals.runsOf; rw [h]⟩

/-- Claim C7 witness: the theorem applied to the scenario program `P7` after
disposal, with the two subsequent `set()` calls. -/
theorem C7_witness :
    Signals.stAt (Signals.applySets Signals.P7 Signals.P7s2 [(0, 7), (0, 9)]) 1 =
      Signals.stAt Signals.P7s2 1 ∧
    Signals.runsOf (Signals.applySets Signals.P7 Signals.P7s2 [(0, 7), (0, 9)]) 1 =
      Signals.runsOf Signals.P7s2 1 :=
  (C7_dispose_permanent Signals.P7 Signals.P7s2 1 (.read 0)
    (by decide) (by decide)).1 [(0, 7), (0, 9)]

/-- Every notification event recorded by `notifyList` either originates at
the given source or (for the transitively pushed dirty bit) at a
ComputedSignal node, provided deeper propagation only records
ComputedSignal sources. -/
theorem notifyList_log_comp (p : Signals.Program)
    (deep : Signals.EState → Nat → Signals.EState × List (Nat × Nat))
    (hdeep : ∀ σ t, Signals.isComp p t = true →
      ∀ pr ∈ (deep σ t).2, Signals.isComp p pr.1 = true) :
    ∀ (ts : List Nat) (σ : Signals.EState) (src : Nat),
      ∀ pr ∈ (Signals.notifyList p deep σ src ts).2,
        pr.1 = src ∨ Signals.isComp p pr.1 = true := by
  intro ts
  induction ts with
  | nil => intro σ src pr hpr; simp [Signals.notifyList] at hpr
  | cons t ts ih =>
    intro σ src pr hpr
    cases hdef : Signals.defAt p t with
    | sig w =>
      rcases hN : Signals.notifyList p deep σ src ts with ⟨σ', log⟩
      have hlog : (Signals.notifyList p deep σ src (t :: ts)).2 =
          (src, t) :: log := by simp [Signals.notifyList, hdef, hN]
      rw [hlog] at hpr
      rcases List.mem_cons.mp hpr with rfl | h
      · exact Or.inl rfl
      · exact ih σ src pr (by rw [hN]; exact h)
    | comp body =>
      by_cases hdt : (Signals.stAt σ t).dirty
      · rcases hN : Signals.notifyList p deep σ src ts with ⟨σ', log⟩
        have hlog : (Signals.notifyList p deep σ src (t :: ts)).2 =
            (src, t) :: log := by simp [Signals.notifyList, hdef, hdt, hN]
        rw [hlog] at hpr
        rcases List.mem_cons.mp hpr with rfl | h
        · exact Or.inl rfl
        · exact ih σ src pr (by rw [hN]; exact h)
      · have hcomp : Signals.isComp p t = true := by
          simp [Signals.isComp, hdef]
        rcases hD : deep (Signals.setSt σ t { Signals.stAt σ t with dirty := true }) t
          with ⟨σ2, log2⟩
        rcases hN : Signals.notifyList p deep σ2 src ts with ⟨σ', log3⟩
        have hlog : (Signals.notifyList p deep σ src (t :: ts)).2 =
            (src, t) :: (log2 ++ log3) := by
          simp [Signals.notifyList, hdef, hdt, hD, hN]
        rw [hlog] at hpr
        rcases List.mem_cons.mp hpr with rfl | h
        · exact Or.inl rfl
        · rcases List.mem_append.mp h with h2 | h3
          · exact Or.inr (hdeep _ t hcomp pr (by rw [hD]; exact h2))
          · exact ih σ2 src pr (by rw [hN]; exact h3)
    | eff body =>
      by_cases hdt : (Signals.stAt σ t).disposed
      · rcases hN : Signals.notifyList p deep σ src ts with ⟨σ', log⟩
        have hlog : (Signals.notifyList p deep σ src (t :: ts)).2 =
            (src, t) :: log := by simp [Signals.notifyList, hdef, hdt, hN]
        rw [hlog] at hpr
        rcases List.mem_cons.mp hpr with rfl | h
        · exact Or.inl rfl
        · exact ih σ src pr (by rw [hN]; exact h)
      · rcases hE : Signals.evalB (Signals.pullC p (Signals.fuelOf p)) σ body
          with ⟨σ1, r, ds⟩
        rcases hN : Signals.notifyList p deep
            (Signals.setSt σ1 t
              { Signals.stAt σ1 t with
                deps := ds
                runs := (Signals.stAt σ1 t).runs + 1
                dirty := false }) src ts with ⟨σ', log⟩
        have hlog : (Signals.notifyList p deep σ src (t :: ts)).2 =
            (src, t) :: log := by
          simp [Signals.notifyList, hdef, hdt, hE, hN]
        rw [hlog] at hpr
        rcases List.mem_cons.mp hpr with rfl | h
        · exact Or.inl rfl
        · exact ih _ src pr (by rw [hN]; exact h)

/-- Every notification event recorded by propagation from a ComputedSignal
originates at a ComputedSignal node. -/
theorem notifyFrom_log_comp (p : Signals.Program) :
    ∀ (fuel : Nat) (σ : Signals.EState) (src : Nat),
      Signals.isComp p src = true →
      ∀ pr ∈ (Signals.notifyFrom p fuel σ src).2,
        Signals.isComp p pr.1 = true := by
  intro fuel
  induction fuel with
  | zero => intro σ src _ pr hpr; simp [Signals.notifyFrom] at hpr
  | succ fuel ih =>
    intro σ src hsrc pr hpr
    rcases notifyList_log_comp p (Signals.notifyFrom p fuel)
      (fun τ t ht => ih τ t ht) (Signals.subsOf p σ src) σ src pr hpr with
      h | h
    · rw [h]; exact hsrc
    · exact h

/-- The events whose source is a (non-ComputedSignal) changed node are
exactly one notification per target, in delivery order: deeper events all
originate at ComputedSignals and are filtered out. -/
theorem notifyList_log_filter (p : Signals.Program)
    (deep : Signals.EState → Nat → Signals.EState × List (Nat × Nat))
    (src : Nat) (hsrc : Signals.isComp p src = false)
    (hdeep : ∀ σ t, Signals.isComp p t = true →
      ∀ pr ∈ (deep σ t).2, Signals.isComp p pr.1 = true) :
    ∀ (ts : List Nat) (σ : Signals.EState),
      ((Signals.notifyList p deep σ src ts).2.filter
        (fun pr => pr.1 == src)).map Prod.snd = ts := by
  intro ts
  induction ts with
  | nil => intro σ; simp [Signals.notifyList]
  | cons t ts ih =>
    intro σ
    cases hdef : Signals.defAt p t with
    | sig w =>
      rcases hN : Signals.notifyList p deep σ src ts with ⟨σ', log⟩
      have hlog : (Signals.notifyList p deep σ src (t :: ts)).2 =
          (src, t) :: log := by simp [Signals.notifyList, hdef, hN]
      have := ih σ
      rw [hN] at this
      simp [hlog, this]
    | comp body =>
      by_cases hdt : (Signals.stAt σ t).dirty
      · rcases hN : Signals.notifyList p deep σ src ts with ⟨σ', log⟩
        have hlog : (Signals.notifyList p deep σ src (t :: ts)).2 =
            (src, t) :: log := by simp [Signals.notifyList, hdef, hdt, hN]
        have := ih σ
        rw [hN] at this
        simp [hlog, this]
      · have hcomp : Signals.isComp p t = true := by
          simp [Signals.isComp, hdef]
        rcases hD : deep (Signals.setSt σ t { Signals.stAt σ t with dirty := true }) t
          with ⟨σ2, log2⟩
        rcases hN : Signals.notifyList p deep σ2 src ts with ⟨σ', log3⟩
        have hlog : (Signals.notifyList p deep σ src (t :: ts)).2 =
            (src, t) :: (log2 ++ log3) := by
          simp [Signals.notifyList, hdef, hdt, hD, hN]
        have h2 : log2.filter (fun pr => pr.1 == src) = [] := by
          apply List.filter_eq_nil.mpr
          intro pr hpr
          have hc := hdeep _ t hcomp pr (by rw [hD]; exact hpr)
          simp only [beq_iff_eq]
          intro hEq
          rw [hEq] at hc
          rw [hc] at hsrc
          cases hsrc
        have h3 := ih σ2
        rw [hN] at h3
        simp [hlog, List.filter_append, h2, h3]
    | eff body =>
      by_cases hdt : (Signals.stAt σ t).disposed
      · rcases hN : Signals.notifyList p deep σ src ts with ⟨σ', log⟩
        have hlog : (Signals.notifyList p deep σ src (t :: ts)).2 =
            (src, t) :: log := by simp [Signals.notifyList, hdef, hdt, hN]
        have := ih σ
        rw [hN] at this
        simp [hlog, this]
      · rcases hE : Signals.evalB (Signals.pullC p (Signals.fuelOf p)) σ body
          with ⟨σ1, r, ds⟩
        rcases hN : Signals.notifyList p deep
            (Signals.setSt σ1 t
              { Signals.stAt σ1 t with
                deps := ds
                runs := (Signals.stAt σ1 t).runs + 1
                dirty := false }) src ts with ⟨σ', log⟩
        have hlog : (Signals.notifyList p deep σ src (t :: ts)).2 =
            (src, t) :: log := by
          simp [Signals.notifyList, hdef, hdt, hE, hN]
        have := ih (Signals.setSt σ1 t
          { Signals.stAt σ1 t with
            deps := ds
            runs := (Signals.stAt σ1 t).runs + 1
            dirty := false })
        rw [hN] at this
        simp [hlog, this]

/-- Overwriting only the `value` field of a node changes no dependency set
and no disposal flag, hence no subscriber list. -/
theorem subsOf_set_value (p : Signals.Program) (σ : Signals.EState)
    (i : Nat) (v : Int) (k : Nat) :
    Signals.subsOf p (Signals.setSt σ i { Signals.stAt σ i with value := v }) k =
      Signals.subsOf p σ k := by
  unfold Signals.subsOf
  apply List.filter_congr
  intro j _
  by_cases hji : j = i
  · subst hji
    by_cases hl : j < σ.length
    · rw [show Signals.stAt
          (Signals.setSt σ j { Signals.stAt σ j with value := v }) j =
          { Signals.stAt σ j with value := v } from
          stAt_setSt_self σ j _ hl]
      unfold Signals.isObserver
      cases Signals.defAt p j <;> simp [stAt_setSt_self σ j _ hl]
    · rw [show Signals.setSt σ j { Signals.stAt σ j with value := v } = σ from
        List.set_eq_of_length_le (by omega)]
  · rw [show Signals.stAt
        (Signals.setSt σ i { Signals.stAt σ i with value := v }) j =
        Signals.stAt σ j from stAt_setSt_ne σ j i _ hji]
    unfold Signals.isObserver
    rw [show Signals.stAt
        (Signals.setSt σ i { Signals.stAt σ i with value := v }) j =
        Signals.stAt σ j from stAt_setSt_ne σ j i _ hji]

/-- Claim C4: when `set(v)` actually changes a Signal's value, every current
subscriber of that Signal is notified exactly once before `set` returns —
the events of the returned log whose source is the Signal are, in delivery
order, exactly its (duplicate-free) subscriber list — and the whole cascade
happens inside the `set` call, a pure function of the state: on the
scenario `P4`, the returned state already shows the dependent effect
re-run (runs 2) and the log is exactly one notification. -/
theorem C4_set_notifies_once (p : Signals.Program) (σ : Signals.EState)
    (i : Nat) (v w : Int) (hdef : Signals.defAt p i = .sig w)
    (hne : (Signals.stAt σ i).value ≠ v) :
    ((Signals.setSig p σ i v).2.filter (fun pr => pr.1 == i)).map Prod.snd =
      Signals.subsOf p σ i ∧
    (Signals.subsOf p σ i).Nodup ∧
    (Signals.setSig Signals.P4 (Signals.boot Signals.P4) 0 5).2 = [(0, 1)] ∧
    Signals.runsOf (Signals.setSig Signals.P4 (Signals.boot Signals.P4) 0 5).1 1 = 2 := by
  refine ⟨?_, ?_, by decide, by decide⟩
  · have hsrc : Signals.isComp p i = false := by
      simp [Signals.isComp, hdef]
    have hred : (Signals.setSig p σ i v).2 =
        (Signals.notifyList p (Signals.notifyFrom p p.length)
          (Signals.setSt σ i { Signals.stAt σ i with value := v }) i
          (Signals.subsOf p
            (Signals.setSt σ i { Signals.stAt σ i with value := v }) i)).2 := by
      simp [Signals.setSig, hdef, hne, Signals.notifyFrom, Signals.fuelOf]
    rw [hred,
      notifyList_log_filter p (Signals.notifyFrom p p.length) i hsrc
        (fun τ t ht => notifyFrom_log_comp p p.length τ t ht) _ _,
      subsOf_set_value]
  · exact (List.nodup_range p.length).filter _

/-- Claim C4 witness: the theorem applied to the scenario program `P4` at
its booted state, setting the Signal from 1 to 5. -/
theorem C4_witness :
    ((Signals.setSig Signals.P4 (Signals.boot Signals.P4) 0 5).2.filter
      (fun pr => pr.1 == 0)).map Prod.snd =
        Signals.subsOf Signals.P4 (Signals.boot Signals.P4) 0 ∧
    (Signals.subsOf Signals.P4 (Signals.boot Signals.P4) 0).Nodup ∧
    (Signals.setSig Signals.P4 (Signals.boot Signals.P4) 0 5).2 = [(0, 1)] ∧
    Signals.runsOf (Signals.setSig Signals.P4 (Signals.boot Signals.P4) 0 5).1 1 = 2 :=
  C4_set_notifies_once Signals.P4 (Signals.boot Signals.P4) 0 5 1
    (by decide) (by decide)
